import Mathlib

/-!
Verification development for the Wordle Battle repository.

The repository ships the browser clients (`src/static/*.js`, `src/unnamed/*`)
together with a README describing the server processes (`app.py`,
`matchmaker_worker.py`, `game_worker.py`).  The server-side core — the guess
evaluator, the matchmaking queue, the match session state machine and the
timer engine — is not part of the shipped sources, so those components are
modelled from the specification; the client-side handlers are embedded
directly from the JavaScript sources under `src/`.
-/

namespace WordleBattle

/-! ## Definitions: guess evaluator (modelled from the spec) -/

/-- Feedback color for one letter of a guess. -/
inductive Color
  | green
  | yellow
  | gray
deriving DecidableEq, Repr

/-- Modelled from the spec: the Guess Evaluator is server-side code absent
from `src/`.  Pass 1 of the two-pass algorithm: the target's
remaining-letter multiset after exact positional matches are consumed —
the target letters at all non-green positions. -/
def remainingAfterGreens (guess target : List Char) : List Char :=
  (guess.zip target).filterMap fun p => if p.1 = p.2 then none else some p.2

/-- Modelled from the spec: pass 2 of the Guess Evaluator.  Exact matches are
green; otherwise a position is yellow when the guessed letter still has a
remaining occurrence in the target multiset (consuming it), else gray. -/
def pass2 : List (Char × Char) → List Char → List Color
  | [], _ => []
  | (g, t) :: rest, rem =>
    if g = t then Color.green :: pass2 rest rem
    else if g ∈ rem then Color.yellow :: pass2 rest (rem.erase g)
    else Color.gray :: pass2 rest rem

/-- Modelled from the spec: `evaluate(guess, target) → [5]Color`, the two-pass
classic-Wordle scoring of a guess against a target word. -/
def evaluate (guess target : List Char) : List Color :=
  pass2 (guess.zip target) (remainingAfterGreens guess target)

/-- A color counts as a mark when it is green or yellow. -/
def isMark : Color → Bool
  | Color.green => true
  | Color.yellow => true
  | Color.gray => false

/-- The pair `(guess letter, color)` is a green-or-yellow mark on letter `c`. -/
def markPred (c : Char) (q : Char × Color) : Bool :=
  q.1 == c && isMark q.2

/-! ## Definitions: matchmaking queue and room registry
(modelled from the spec; `matchmaker_worker.py` is absent from `src/`) -/

/-- A room pairing two players, created by one pairing cycle. -/
structure Room where
  roomId : Nat
  playerA : Nat
  playerB : Nat
deriving DecidableEq, Repr

/-- Joint state of the Matchmaking Queue (FIFO user ids, oldest first) and
the Room Registry's active rooms. -/
structure MMState where
  queue : List Nat
  rooms : List Room
deriving DecidableEq, Repr

/-- Errors of the queue operations. -/
inductive MMError
  | alreadyQueued
  | notQueued
deriving DecidableEq, Repr

/-- Modelled from the spec: the authoritative current-placement lookup keyed
by user id — the user is queued or occupies a slot in an active room. -/
def placedB (s : MMState) (u : Nat) : Bool :=
  s.queue.contains u || s.rooms.any fun r => r.playerA == u || r.playerB == u

/-- The user id occupies the waiting queue. -/
def inQueueB (s : MMState) (u : Nat) : Bool :=
  s.queue.contains u

/-- The user id occupies a player slot of some active room. -/
def inActiveRoomB (s : MMState) (u : Nat) : Bool :=
  s.rooms.any fun r => r.playerA == u || r.playerB == u

/-- Modelled from the spec: `enqueue(user)` fails with `AlreadyQueued` when
the user is already queued or already in an active room, else appends. -/
def enqueue (s : MMState) (u : Nat) : Except MMError MMState :=
  if placedB s u then Except.error MMError.alreadyQueued
  else Except.ok { s with queue := s.queue ++ [u] }

/-- Modelled from the spec: `cancel(user)` removes the entry if present,
else fails with `NotQueued`. -/
def cancel (s : MMState) (u : Nat) : Except MMError MMState :=
  if s.queue.contains u then Except.ok { s with queue := s.queue.erase u }
  else Except.error MMError.notQueued

/-- Modelled from the spec: one pairing cycle.  When at least two entries
exist it takes the two oldest; if both are still present it atomically
creates a room with a fresh id and removes both entries; stale entries are
discarded with no pairing. -/
def pairCycle (online : Nat → Bool) (fresh : Nat) (s : MMState) : MMState :=
  match s.queue with
  | u :: v :: rest =>
    if online u then
      if online v then
        { queue := rest, rooms := ⟨fresh, u, v⟩ :: s.rooms }
      else { queue := u :: rest, rooms := s.rooms }
    else
      if online v then { queue := v :: rest, rooms := s.rooms }
      else { queue := rest, rooms := s.rooms }
  | _ => s

/-- Modelled from the spec: a room is destroyed (archived) once the Match
Recorder persists its result. -/
def archiveRoom (s : MMState) (rid : Nat) : MMState :=
  { s with rooms := s.rooms.filter fun r => r.roomId != rid }

/-- States reachable from the empty system via the queue and registry
operations. -/
inductive Reachable : MMState → Prop
  | init : Reachable ⟨[], []⟩
  | enqueueOk {s s' : MMState} {u : Nat} :
      Reachable s → enqueue s u = Except.ok s' → Reachable s'
  | cancelOk {s s' : MMState} {u : Nat} :
      Reachable s → cancel s u = Except.ok s' → Reachable s'
  | pair {s : MMState} (online : Nat → Bool) (fresh : Nat) :
      Reachable s → Reachable (pairCycle online fresh s)
  | archive {s : MMState} (rid : Nat) :
      Reachable s → Reachable (archiveRoom s rid)

/-- The user occupies no player slot in the given room list. -/
def PlacementFree (rooms : List Room) (u : Nat) : Prop :=
  ∀ r ∈ rooms, r.playerA ≠ u ∧ r.playerB ≠ u

/-- System invariant: the queue has no duplicates, and no queued user
occupies an active room. -/
def Inv (s : MMState) : Prop :=
  s.queue.Nodup ∧ ∀ u ∈ s.queue, PlacementFree s.rooms u

/-! ## Definitions: match session state machine and timer engine
(modelled from the spec; `app.py` / `game_worker.py` are absent from `src/`) -/

/-- Lifecycle phase of a match. -/
inductive Phase
  | waiting
  | active
  | finished
deriving DecidableEq, Repr

/-- Why a match finished. -/
inductive Reason
  | timeout
  | surrender
  | disconnectTimeout
deriving DecidableEq, Repr

/-- The two player slots of a room. -/
inductive Player
  | A
  | B
deriving DecidableEq, Repr

/-- The opposing player slot. -/
def Player.other : Player → Player
  | Player.A => Player.B
  | Player.B => Player.A

/-- Modelled from the spec's data model: per-room MatchState. -/
structure MatchState where
  phase : Phase
  scoreA : Nat
  scoreB : Nat
  secondsRemaining : Nat
  targetA : List Char
  targetB : List Char
  historyA : List (List Char)
  historyB : List (List Char)
  finishReason : Option Reason
  winner : Option Player
  surrenderedBy : Option Player
deriving DecidableEq, Repr

/-- Errors raised on guess submission. -/
inductive GuessError
  | invalidGuess
  | matchFinished
  | notActive
deriving DecidableEq, Repr

/-- Modelled from the spec: a guess is valid when it is exactly 5 alphabetic
characters. -/
def validGuess (g : List Char) : Bool :=
  g.length == 5 && g.all Char.isAlpha

/-- The current target word of the given player. -/
def targetOf (p : Player) (st : MatchState) : List Char :=
  match p with
  | Player.A => st.targetA
  | Player.B => st.targetB

/-- Modelled from the spec: guess submission.  A finished match rejects every
guess; a waiting match is not yet playable; an invalid guess fails without
mutating state; otherwise the Guess Evaluator scores the guess, it is
appended to the player's history, and a solved word bumps that player's
score and assigns a new target word (supplied by the word source). -/
def submitGuess (newWord : List Char) (p : Player) (g : List Char)
    (st : MatchState) : Except GuessError (MatchState × List Color × Bool) :=
  if st.phase = Phase.finished then Except.error GuessError.matchFinished
  else if st.phase = Phase.waiting then Except.error GuessError.notActive
  else if validGuess g = false then Except.error GuessError.invalidGuess
  else
    let colors := evaluate g (targetOf p st)
    let solved := colors.all fun c => c == Color.green
    match p with
    | Player.A =>
      let st1 := { st with historyA := st.historyA ++ [g] }
      if solved then
        Except.ok ({ st1 with scoreA := st1.scoreA + 1, targetA := newWord },
          colors, true)
      else Except.ok (st1, colors, false)
    | Player.B =>
      let st1 := { st with historyB := st.historyB ++ [g] }
      if solved then
        Except.ok ({ st1 with scoreB := st1.scoreB + 1, targetB := newWord },
          colors, true)
      else Except.ok (st1, colors, false)

/-- The match state after a guess submission: a failed submission leaves the
state unchanged. -/
def applyGuess (newWord : List Char) (p : Player) (g : List Char)
    (st : MatchState) : MatchState :=
  match submitGuess newWord p g st with
  | Except.ok (st', _, _) => st'
  | Except.error _ => st

/-- Modelled from the spec: an explicit surrender by one player finishes an
active match; the surrenderer automatically loses regardless of score. -/
def surrender (p : Player) (st : MatchState) : MatchState :=
  if st.phase = Phase.active then
    { st with
      phase := Phase.finished
      finishReason := some Reason.surrender
      winner := some p.other
      surrenderedBy := some p }
  else st

/-- Modelled from the spec: the winner on timeout is the higher score, or
null (tie) on equal scores. -/
def timeoutWinner (st : MatchState) : Option Player :=
  if st.scoreA > st.scoreB then some Player.A
  else if st.scoreB > st.scoreA then some Player.B
  else none

/-- Modelled from the spec: one Timer Engine tick.  An active room's
countdown decrements once per second; reaching exactly 0 finalizes the
match with reason timeout; ticking a finished (or waiting) room is a no-op. -/
def tick (st : MatchState) : MatchState :=
  if st.phase = Phase.active then
    let t := st.secondsRemaining - 1
    if t = 0 then
      { st with
        secondsRemaining := 0
        phase := Phase.finished
        finishReason := some Reason.timeout
        winner := timeoutWinner st }
    else { st with secondsRemaining := t }
  else st

/-- A sample active match state used by the concrete witnesses. -/
def sampleActive : MatchState :=
  { phase := Phase.active
    scoreA := 2
    scoreB := 1
    secondsRemaining := 300
    targetA := "APPLE".toList
    targetB := "BREAD".toList
    historyA := []
    historyB := []
    finishReason := none
    winner := none
    surrenderedBy := none }

/-- A sample finished match state used by the concrete witnesses. -/
def sampleFinished : MatchState :=
  { phase := Phase.finished
    scoreA := 3
    scoreB := 1
    secondsRemaining := 0
    targetA := "APPLE".toList
    targetB := "BREAD".toList
    historyA := []
    historyB := []
    finishReason := some Reason.timeout
    winner := some Player.A
    surrenderedBy := none }

/-! ## Definitions: client-side handlers (embedded from the sources) -/

/-- JavaScript truthiness of a nullable string: `null` and `""` are falsy. -/
def jsTruthy : Option String → Bool
  | none => false
  | some s => !(s == "")

/-- Client state of `src/static/gamepage.js` touched by its `match_found`
handler. -/
structure GamepageState where
  currentRoom : Option String
  isPlayer1 : Option Bool
  matchStarted : Bool
  matchEnded : Bool
  gameAreaShown : Bool
  currentWordRow : Nat
  currentGuesses : List String
  inputsDisabled : Bool
  surrenderDisabled : Bool
  surrenderLabel : String
  waitingStatusText : String
  opponentStatusText : String
deriving DecidableEq, Repr

/-- Payload of the `match_found` event. -/
structure MatchFoundEvent where
  room : String
  is_p1 : Bool
deriving DecidableEq, Repr

/-- Embedded from `src/static/gamepage.js`: the client state produced by the
body of the `match_found` handler (room stored, slot flag set, game UI
shown, grid re-initialized, inputs enabled). -/
def matchFoundState (e : MatchFoundEvent) : GamepageState :=
  { currentRoom := some e.room
    isPlayer1 := some e.is_p1
    matchStarted := true
    matchEnded := false
    gameAreaShown := true
    currentWordRow := 0
    currentGuesses := []
    inputsDisabled := false
    surrenderDisabled := false
    surrenderLabel := "Surrender"
    waitingStatusText := "Match found! Preparing game..."
    opponentStatusText := "Starting soon..." }

/-- Embedded from `src/static/gamepage.js` lines 262-291: the `match_found`
handler returns early when a match has started and a room is already held
(`if (matchStarted && currentRoom) return`), else it adopts the event. -/
def onMatchFound (e : MatchFoundEvent) (s : GamepageState) : GamepageState :=
  if s.matchStarted && jsTruthy s.currentRoom then s
  else matchFoundState e

/-- ASCII model of the whitespace removed by JavaScript `trim()`. -/
def isJsSpace (c : Char) : Bool :=
  c == ' ' || c == '\t' || c == '\n' || c == '\r'

/-- ASCII model of JavaScript `String.prototype.trim`. -/
def jsTrim (s : List Char) : List Char :=
  ((s.dropWhile isJsSpace).reverse.dropWhile isJsSpace).reverse

/-- ASCII model of JavaScript `String.prototype.toUpperCase` per character. -/
def jsToUpper (c : Char) : Char :=
  if 'a' ≤ c ∧ c ≤ 'z' then Char.ofNat (c.toNat - 32) else c

/-- Observable outcome of a client submit handler. -/
inductive SubmitAction
  | emitGuess (room : String) (guess : List Char)
  | showErr (msg : String)
  | ignore
deriving DecidableEq, Repr

/-- Embedded from `src/static/gamepage.js` lines 353-366: the `submitBtn`
click handler.  It bails out when the match ended or no room is held,
upper-cases the trimmed input, rejects only on length different from 5, and
otherwise emits `submit_guess` — there is no character-class check. -/
def gamepageSubmitClick (matchEnded : Bool) (currentRoom : Option String)
    (inputValue : List Char) : SubmitAction :=
  if matchEnded then SubmitAction.ignore
  else
    match currentRoom with
    | none => SubmitAction.ignore
    | some room =>
      if room == "" then SubmitAction.ignore
      else
        let guess := (jsTrim inputValue).map jsToUpper
        if guess.length ≠ 5 then SubmitAction.showErr "Guess must be 5 letters"
        else SubmitAction.emitGuess room guess

/-- Embedded from `src/unnamed/part_003` lines 212-223: its `submitGuess`
additionally rejects inputs not matching the regex of capital letters
(`/^[A-Z]+$/`) before emitting. -/
def part003SubmitGuess (socketConnected : Bool) (currentRoom : Option String)
    (inputValue : List Char) : SubmitAction :=
  if !socketConnected then SubmitAction.ignore
  else
    match currentRoom with
    | none => SubmitAction.ignore
    | some room =>
      if room == "" then SubmitAction.ignore
      else
        let guess := (jsTrim inputValue).map jsToUpper
        if guess.length ≠ 5 then SubmitAction.showErr "Guess must be 5 letters"
        else if !(guess.all fun c => 'A' ≤ c && c ≤ 'Z') then
          SubmitAction.showErr "Guess must contain only letters"
        else SubmitAction.emitGuess room guess

/-! ## Theorems: guess evaluator -/

theorem pass2_cons_green (g : Char) (rest : List (Char × Char))
    (rem : List Char) :
    pass2 ((g, g) :: rest) rem = Color.green :: pass2 rest rem := by
  simp [pass2]

theorem pass2_cons_yellow {g t : Char} (hgt : g ≠ t) {rem : List Char}
    (hmem : g ∈ rem) (rest : List (Char × Char)) :
    pass2 ((g, t) :: rest) rem = Color.yellow :: pass2 rest (rem.erase g) := by
  simp [pass2, hgt, hmem]

theorem pass2_cons_gray {g t : Char} (hgt : g ≠ t) {rem : List Char}
    (hmem : g ∉ rem) (rest : List (Char × Char)) :
    pass2 ((g, t) :: rest) rem = Color.gray :: pass2 rest rem := by
  simp [pass2, hgt, hmem]

theorem pass2_length (ps : List (Char × Char)) (rem : List Char) :
    (pass2 ps rem).length = ps.length := by
  induction ps generalizing rem with
  | nil => rfl
  | cons p rest ih =>
    obtain ⟨g, t⟩ := p
    by_cases hgt : g = t
    · simp [pass2, hgt, ih]
    · by_cases hmem : g ∈ rem
      · simp [pass2, hgt, hmem, ih]
      · simp [pass2, hgt, hmem, ih]

theorem pass2_getElem?_green (ps : List (Char × Char)) (rem : List Char)
    (i : Nat) :
    (pass2 ps rem)[i]? = some Color.green ↔ ∃ g, ps[i]? = some (g, g) := by
  induction ps generalizing rem i with
  | nil => simp [pass2]
  | cons p rest ih =>
    obtain ⟨g, t⟩ := p
    by_cases hgt : g = t
    · subst hgt
      cases i with
      | zero => simp [pass2]
      | succ j => simpa [pass2] using ih rem j
    · by_cases hmem : g ∈ rem
      · cases i with
        | zero =>
          rw [pass2_cons_yellow hgt hmem]
          simp only [List.getElem?_cons_zero]
          constructor
          · intro h; cases h
          · rintro ⟨x, hx⟩
            simp only [Option.some.injEq, Prod.mk.injEq] at hx
            exact absurd (hx.1.trans hx.2.symm) hgt
        | succ j =>
          rw [pass2_cons_yellow hgt hmem]
          simpa using ih (rem.erase g) j
      · cases i with
        | zero =>
          rw [pass2_cons_gray hgt hmem]
          simp only [List.getElem?_cons_zero]
          constructor
          · intro h; cases h
          · rintro ⟨x, hx⟩
            simp only [Option.some.injEq, Prod.mk.injEq] at hx
            exact absurd (hx.1.trans hx.2.symm) hgt
        | succ j =>
          rw [pass2_cons_gray hgt hmem]
          simpa using ih rem j

theorem pass2_marks_le (c : Char) (ps : List (Char × Char)) (rem : List Char) :
    ((ps.map Prod.fst).zip (pass2 ps rem)).countP (markPred c)
      ≤ ps.countP (fun p => p.1 == p.2 && p.2 == c) + rem.count c := by
  induction ps generalizing rem with
  | nil => simp [pass2]
  | cons p rest ih =>
    obtain ⟨g, t⟩ := p
    by_cases hgt : g = t
    · subst hgt
      rw [pass2_cons_green, List.map_cons, List.zip_cons_cons,
        List.countP_cons, List.countP_cons]
      have hIH := ih rem
      by_cases hc : g = c
      · simp only [markPred, isMark, hc, beq_self_eq_true, Bool.and_true,
          Bool.true_and, if_pos rfl]
        omega
      · have h1 : markPred c (g, Color.green) = false := by
          simp [markPred, isMark, hc]
        have h2 : ((g, g).1 == (g, g).2 && (g, g).2 == c) = false := by
          simp [hc]
        simp only [h1, h2, Bool.false_eq_true, if_false]
        omega
    · by_cases hmem : g ∈ rem
      · rw [pass2_cons_yellow hgt hmem, List.map_cons, List.zip_cons_cons,
          List.countP_cons, List.countP_cons]
        have h2 : ((g, t).1 == (g, t).2 && (g, t).2 == c) = false := by
          simp [hgt]
        by_cases hc : g = c
        · have h1 : markPred c (g, Color.yellow) = true := by
            simp [markPred, isMark, hc]
          have hcount : 0 < List.count c rem := by
            rw [← hc] at *; exact List.count_pos_iff.mpr hmem
          have herase : List.count c (rem.erase g) = List.count c rem - 1 := by
            rw [hc] at *; exact List.count_erase_self c rem
          have hIH := ih (rem.erase g)
          simp only [h1, h2, Bool.false_eq_true, if_false]
          rw [if_pos trivial]
          omega
        · have h1 : markPred c (g, Color.yellow) = false := by
            simp [markPred, isMark, hc]
          have herase : List.count c (rem.erase g) = List.count c rem :=
            List.count_erase_of_ne (fun h => hc h.symm) rem
          have hIH := ih (rem.erase g)
          rw [herase] at hIH
          simp only [h1, h2, Bool.false_eq_true, if_false]
          omega
      · rw [pass2_cons_gray hgt hmem, List.map_cons, List.zip_cons_cons,
          List.countP_cons, List.countP_cons]
        have h1 : markPred c (g, Color.gray) = false := by
          simp [markPred, isMark]
        have h2 : ((g, t).1 == (g, t).2 && (g, t).2 == c) = false := by
          simp [hgt]
        have hIH := ih rem
        simp only [h1, h2, Bool.false_eq_true, if_false]
        omega

theorem count_decomp (c : Char) (ps : List (Char × Char)) :
    ps.countP (fun p => p.2 == c)
      = ps.countP (fun p => p.1 == p.2 && p.2 == c)
        + (ps.filterMap fun p => if p.1 = p.2 then none else some p.2).count c := by
  induction ps with
  | nil => simp
  | cons p rest ih =>
    obtain ⟨g, t⟩ := p
    by_cases hgt : g = t
    · subst hgt
      by_cases hc : g = c
      · subst hc
        simp only [List.countP_cons, List.filterMap_cons]
        simp [ih]
        omega
      · simp only [List.countP_cons, List.filterMap_cons]
        simp [hc, ih]
    · by_cases hc : t = c
      · subst hc
        simp only [List.countP_cons, List.filterMap_cons]
        simp [hgt, List.count_cons, ih]
        omega
      · simp only [List.countP_cons, List.filterMap_cons]
        simp [hgt, hc, List.count_cons, ih]

theorem zip_count_snd (c : Char) (gs ts : List Char)
    (h : gs.length = ts.length) :
    (gs.zip ts).countP (fun p => p.2 == c) = ts.count c := by
  induction gs generalizing ts with
  | nil =>
    cases ts with
    | nil => simp
    | cons t ts' => simp at h
  | cons g gs' ih =>
    cases ts with
    | nil => simp at h
    | cons t ts' =>
      simp only [List.length_cons, Nat.succ.injEq] at h
      by_cases hc : t = c <;>
        simp [List.zip_cons_cons, List.countP_cons, List.count_cons, hc,
          ih ts' h]

theorem zip_map_fst (gs ts : List Char) (h : gs.length = ts.length) :
    (gs.zip ts).map Prod.fst = gs := by
  induction gs generalizing ts with
  | nil => simp
  | cons g gs' ih =>
    cases ts with
    | nil => simp at h
    | cons t ts' =>
      simp only [List.length_cons, Nat.succ.injEq] at h
      simp [List.zip_cons_cons, ih ts' h]

/-- C1: for every 5-letter guess and 5-letter target, `evaluate` yields green
at position i iff the guess and target agree at position i, and for every
letter the number of green-plus-yellow marks placed on occurrences of that
letter never exceeds the letter's occurrence count in the target. -/
theorem evaluate_green_iff_and_marks_bound (guess target : List Char)
    (hg : guess.length = 5) (ht : target.length = 5) :
    (∀ i, i < 5 →
        ((evaluate guess target)[i]? = some Color.green
          ↔ ∃ a, guess[i]? = some a ∧ target[i]? = some a))
    ∧ ∀ c : Char,
        (guess.zip (evaluate guess target)).countP (markPred c)
          ≤ target.count c := by
  have hlen : guess.length = target.length := by rw [hg, ht]
  constructor
  · intro i _
    rw [evaluate, pass2_getElem?_green]
    constructor
    · rintro ⟨g, hgz⟩
      have h := List.getElem?_zip_eq_some.mp hgz
      exact ⟨g, h.1, h.2⟩
    · rintro ⟨a, ha1, ha2⟩
      exact ⟨a, List.getElem?_zip_eq_some.mpr ⟨ha1, ha2⟩⟩
  · intro c
    have hfst : (guess.zip target).map Prod.fst = guess := zip_map_fst _ _ hlen
    have hb := pass2_marks_le c (guess.zip target)
      (remainingAfterGreens guess target)
    rw [hfst] at hb
    calc (guess.zip (evaluate guess target)).countP (markPred c)
        ≤ (guess.zip target).countP (fun p => p.1 == p.2 && p.2 == c)
            + (remainingAfterGreens guess target).count c := hb
      _ = (guess.zip target).countP (fun p => p.2 == c) :=
            (count_decomp c (guess.zip target)).symm
      _ = target.count c := zip_count_snd c guess target hlen

/-- Witness for C1 at guess "LOLLY", target "ALLOT", letter L. -/
theorem evaluate_green_iff_and_marks_bound_witness :
    "LOLLY".toList.length = 5 ∧ "ALLOT".toList.length = 5 ∧
    ("LOLLY".toList.zip
        (evaluate "LOLLY".toList "ALLOT".toList)).countP (markPred 'L')
      ≤ "ALLOT".toList.count 'L' :=
  ⟨by decide, by decide,
    (evaluate_green_iff_and_marks_bound "LOLLY".toList "ALLOT".toList
      (by decide) (by decide)).2 'L'⟩

/-- C2: for target "ALLOT" and guess "LOLLY" the evaluator returns exactly
[yellow, yellow, green, gray, gray]. -/
theorem evaluate_lolly_allot :
    evaluate "LOLLY".toList "ALLOT".toList
      = [Color.yellow, Color.yellow, Color.green, Color.gray, Color.gray] := by
  decide

/-! ## Theorems: matchmaking queue and room registry -/

theorem placedB_false {s : MMState} {u : Nat} (h : placedB s u = false) :
    u ∉ s.queue ∧ PlacementFree s.rooms u := by
  simp only [placedB, Bool.or_eq_false_iff] at h
  refine ⟨by simpa using h.1, fun r hr => ?_⟩
  have h2 := h.2
  simp at h2
  exact h2 r hr

theorem inv_enqueue {s s' : MMState} {u : Nat} (h : Inv s)
    (he : enqueue s u = Except.ok s') : Inv s' := by
  unfold enqueue at he
  by_cases hp : placedB s u = true
  · rw [if_pos hp] at he; cases he
  · have hp' : placedB s u = false := Bool.eq_false_iff.mpr hp
    rw [if_neg (by simp [hp'])] at he
    obtain ⟨hnq, hfree⟩ := placedB_false hp'
    injection he with he'
    subst he'
    refine ⟨?_, ?_⟩
    · simp [List.nodup_append, h.1, hnq]
    · intro w hw
      rcases List.mem_append.mp hw with hw | hw
      · exact h.2 w hw
      · simp only [List.mem_singleton] at hw
        subst hw
        exact hfree

theorem inv_cancel {s s' : MMState} {u : Nat} (h : Inv s)
    (he : cancel s u = Except.ok s') : Inv s' := by
  unfold cancel at he
  by_cases hc : s.queue.contains u = true
  · rw [if_pos hc] at he
    injection he with he'
    subst he'
    exact ⟨h.1.erase u, fun w hw => h.2 w (List.mem_of_mem_erase hw)⟩
  · rw [if_neg hc] at he; cases he

theorem inv_pairCycle (online : Nat → Bool) (fresh : Nat) {s : MMState}
    (h : Inv s) : Inv (pairCycle online fresh s) := by
  rcases hq : s.queue with _ | ⟨u, _ | ⟨v, rest⟩⟩
  · simpa only [pairCycle, hq] using h
  · simpa only [pairCycle, hq] using h
  · have hnd : (u :: v :: rest).Nodup := hq ▸ h.1
    have hu_nin : u ∉ rest := by
      have := (List.nodup_cons.mp hnd).1
      intro hh; exact this (List.mem_cons_of_mem v hh)
    have hv_nin : v ∉ rest := (List.nodup_cons.mp (List.nodup_cons.mp hnd).2).1
    have hrest_nd : rest.Nodup := (List.nodup_cons.mp (List.nodup_cons.mp hnd).2).2
    have hmem : ∀ w ∈ s.queue, PlacementFree s.rooms w := h.2
    simp only [pairCycle, hq]
    by_cases hu : online u = true
    · by_cases hv : online v = true
      · simp only [hu, hv, if_true]
        refine ⟨hrest_nd, fun w hw => ?_⟩
        have hwq : w ∈ s.queue := by rw [hq]; right; right; exact hw
        intro r hr
        rcases List.mem_cons.mp hr with rfl | hr'
        · constructor
          · intro hh
            simp only at hh
            exact hu_nin (hh ▸ hw)
          · intro hh
            simp only at hh
            exact hv_nin (hh ▸ hw)
        · exact hmem w hwq r hr'
      · simp only [hu, hv, if_true, Bool.false_eq_true, if_false]
        refine ⟨List.nodup_cons.mpr ⟨hu_nin, hrest_nd⟩, fun w hw => ?_⟩
        have hwq : w ∈ s.queue := by
          rw [hq]
          rcases List.mem_cons.mp hw with rfl | hw'
          · exact List.mem_cons_self _ _
          · right; right; exact hw'
        exact hmem w hwq
    · by_cases hv : online v = true
      · simp only [hu, hv, if_true, Bool.false_eq_true, if_false]
        refine ⟨List.nodup_cons.mpr ⟨hv_nin, hrest_nd⟩, fun w hw => ?_⟩
        have hwq : w ∈ s.queue := by
          rw [hq]
          rcases List.mem_cons.mp hw with rfl | hw'
          · right; exact List.mem_cons_self _ _
          · right; right; exact hw'
        exact hmem w hwq
      · simp only [hu, hv, Bool.false_eq_true, if_false]
        refine ⟨hrest_nd, fun w hw => ?_⟩
        have hwq : w ∈ s.queue := by rw [hq]; right; right; exact hw
        exact hmem w hwq

theorem inv_archive (rid : Nat) {s : MMState} (h : Inv s) :
    Inv (archiveRoom s rid) := by
  refine ⟨h.1, fun w hw r hr => ?_⟩
  exact h.2 w hw r (List.mem_of_mem_filter hr)

theorem reachable_inv {s : MMState} (hs : Reachable s) : Inv s := by
  induction hs with
  | init => exact ⟨List.nodup_nil, by intro u hu; cases hu⟩
  | enqueueOk _ he ih => exact inv_enqueue ih he
  | cancelOk _ he ih => exact inv_cancel ih he
  | pair online fresh _ ih => exact inv_pairCycle online fresh ih
  | archive rid _ ih => exact inv_archive rid ih

/-- C3: at every reachable state of the matchmaking queue and room registry,
a user id never occupies the queue and an active room simultaneously. -/
theorem queue_room_exclusive (s : MMState) (hs : Reachable s) (u : Nat) :
    ¬(inQueueB s u = true ∧ inActiveRoomB s u = true) := by
  rintro ⟨hq, hr⟩
  have hq' : u ∈ s.queue := by simpa [inQueueB] using hq
  have hr' := hr
  simp only [inActiveRoomB, List.any_eq_true] at hr'
  obtain ⟨r, hrm, hro⟩ := hr'
  have hinv := reachable_inv hs
  have hfree := hinv.2 u hq' r hrm
  simp only [Bool.or_eq_true, beq_iff_eq] at hro
  rcases hro with hh | hh
  · exact hfree.1 hh
  · exact hfree.2 hh

/-- Witness for C3 at the reachable state with user 1 enqueued. -/
theorem queue_room_exclusive_witness :
    ¬(inQueueB ⟨[1], []⟩ 1 = true ∧ inActiveRoomB ⟨[1], []⟩ 1 = true) :=
  queue_room_exclusive ⟨[1], []⟩
    (@Reachable.enqueueOk ⟨[], []⟩ ⟨[1], []⟩ 1 Reachable.init rfl) 1

/-- C4: when the queue holds exactly two distinct, still-present users, one
pairing cycle creates exactly one new room whose player slots are those two
users and removes both entries from the queue. -/
theorem pairCycle_two (s : MMState) (online : Nat → Bool) (fresh : Nat)
    (u v : Nat) (hq : s.queue = [u, v]) (_huv : u ≠ v)
    (hu : online u = true) (hv : online v = true) :
    (pairCycle online fresh s).rooms = ⟨fresh, u, v⟩ :: s.rooms
    ∧ (pairCycle online fresh s).queue = [] := by
  simp [pairCycle, hq, hu, hv]

/-- Witness for C4: users 1 and 2 queued, both online, fresh room id 7. -/
theorem pairCycle_two_witness :
    (pairCycle (fun _ => true) 7 ⟨[1, 2], []⟩).rooms = [⟨7, 1, 2⟩]
    ∧ (pairCycle (fun _ => true) 7 ⟨[1, 2], []⟩).queue = [] :=
  pairCycle_two ⟨[1, 2], []⟩ (fun _ => true) 7 1 2 rfl (by decide) rfl rfl

/-! ## Theorems: match session state machine and timer engine -/

/-- C5: a finished match rejects every guess by either player with the same
error and leaves the state (in particular both scores) unchanged; finished
is terminal — neither a guess, a surrender nor a timer tick leaves it. -/
theorem finished_is_terminal (newWord : List Char) (p : Player)
    (g : List Char) (st : MatchState) (h : st.phase = Phase.finished) :
    submitGuess newWord p g st = Except.error GuessError.matchFinished
    ∧ applyGuess newWord p g st = st
    ∧ (applyGuess newWord p g st).scoreA = st.scoreA
    ∧ (applyGuess newWord p g st).scoreB = st.scoreB
    ∧ surrender p st = st
    ∧ tick st = st := by
  have h1 : submitGuess newWord p g st
      = Except.error GuessError.matchFinished := by
    simp [submitGuess, h]
  have h2 : applyGuess newWord p g st = st := by
    simp [applyGuess, h1]
  refine ⟨h1, h2, by rw [h2], by rw [h2], ?_, ?_⟩
  · simp [surrender, h]
  · simp [tick, h]

/-- Witness for C5 at a concrete finished state. -/
theorem finished_is_terminal_witness :
    submitGuess "CRANE".toList Player.A "HELLO".toList sampleFinished
      = Except.error GuessError.matchFinished
    ∧ applyGuess "CRANE".toList Player.A "HELLO".toList sampleFinished
      = sampleFinished
    ∧ (applyGuess "CRANE".toList Player.A "HELLO".toList
        sampleFinished).scoreA = sampleFinished.scoreA
    ∧ (applyGuess "CRANE".toList Player.A "HELLO".toList
        sampleFinished).scoreB = sampleFinished.scoreB
    ∧ surrender Player.A sampleFinished = sampleFinished
    ∧ tick sampleFinished = sampleFinished :=
  finished_is_terminal "CRANE".toList Player.A "HELLO".toList
    sampleFinished rfl

/-- C6: surrendering an active match finishes it with reason surrender, sets
the winner to the non-surrendering player, and does so regardless of the
current scores (both scores are preserved unchanged). -/
theorem surrender_finishes (p : Player) (st : MatchState)
    (h : st.phase = Phase.active) :
    (surrender p st).phase = Phase.finished
    ∧ (surrender p st).finishReason = some Reason.surrender
    ∧ (surrender p st).winner = some p.other
    ∧ (surrender p st).surrenderedBy = some p
    ∧ (surrender p st).scoreA = st.scoreA
    ∧ (surrender p st).scoreB = st.scoreB := by
  simp [surrender, h]

/-- Witness for C6: player B surrenders the sample active match. -/
theorem surrender_finishes_witness :
    (surrender Player.B sampleActive).phase = Phase.finished
    ∧ (surrender Player.B sampleActive).finishReason = some Reason.surrender
    ∧ (surrender Player.B sampleActive).winner = some Player.B.other
    ∧ (surrender Player.B sampleActive).surrenderedBy = some Player.B
    ∧ (surrender Player.B sampleActive).scoreA = sampleActive.scoreA
    ∧ (surrender Player.B sampleActive).scoreB = sampleActive.scoreB :=
  surrender_finishes Player.B sampleActive rfl

theorem tick_iter_active (k : Nat) (st : MatchState)
    (h : st.phase = Phase.active) (hk : k < st.secondsRemaining) :
    tick^[k] st = { st with secondsRemaining := st.secondsRemaining - k } := by
  induction k generalizing st with
  | zero => rfl
  | succ j ih =>
    rw [Function.iterate_succ_apply]
    have ht : tick st
        = { st with secondsRemaining := st.secondsRemaining - 1 } := by
      rw [tick, if_pos h, if_neg (by omega)]
    rw [ht]
    have harg : j < ({ st with secondsRemaining := st.secondsRemaining - 1 } :
        MatchState).secondsRemaining := by
      show j < st.secondsRemaining - 1
      omega
    rw [ih { st with secondsRemaining := st.secondsRemaining - 1 } h harg]
    simp only [MatchState.mk.injEq, true_and, and_true]
    omega

/-- C7: from an active match with 300 seconds remaining, 300 once-per-second
ticks reach exactly 0 and trigger exactly one finished transition with
reason timeout; the countdown is non-increasing, finalization happens only
at 0 (the first 299 ticks keep the match active), and the winner is the
player with the higher score, or null on a tie. -/
theorem timer_300_ticks (st : MatchState) (h : st.phase = Phase.active)
    (h300 : st.secondsRemaining = 300) :
    (∀ k, k ≤ 299 → (tick^[k] st).phase = Phase.active
        ∧ (tick^[k] st).secondsRemaining = 300 - k)
    ∧ (tick^[300] st).phase = Phase.finished
    ∧ (tick^[300] st).secondsRemaining = 0
    ∧ (tick^[300] st).finishReason = some Reason.timeout
    ∧ (tick^[300] st).winner
        = (if st.scoreA > st.scoreB then some Player.A
           else if st.scoreB > st.scoreA then some Player.B else none)
    ∧ (∀ k, tick^[300 + k] st = tick^[300] st)
    ∧ (∀ k, (tick^[k + 1] st).secondsRemaining
        ≤ (tick^[k] st).secondsRemaining) := by
  have hiter : ∀ k, k ≤ 299 →
      tick^[k] st = { st with secondsRemaining := 300 - k } := by
    intro k hk
    rw [tick_iter_active k st h (by omega), h300]
  have h299 : tick^[299] st = { st with secondsRemaining := 1 } :=
    hiter 299 (by omega)
  have h300t : tick^[300] st
      = { st with
          secondsRemaining := 0
          phase := Phase.finished
          finishReason := some Reason.timeout
          winner := timeoutWinner st } := by
    have : (300 : Nat) = 299 + 1 := by omega
    rw [this, Function.iterate_succ_apply', h299]
    simp [tick, h, timeoutWinner]
  have hfinishedFix : ∀ (s : MatchState), s.phase = Phase.finished →
      tick s = s := by
    intro s hs
    rw [tick, if_neg (by rw [hs]; intro hh; cases hh)]
  refine ⟨?_, ?_, ?_, ?_, ?_, ?_, ?_⟩
  · intro k hk
    rw [hiter k hk]
    exact ⟨h, rfl⟩
  · rw [h300t]
  · rw [h300t]
  · rw [h300t]
  · rw [h300t]; simp [timeoutWinner]
  · intro k
    induction k with
    | zero => rfl
    | succ j ihj =>
      have : 300 + (j + 1) = (300 + j) + 1 := by omega
      rw [this, Function.iterate_succ_apply', ihj,
        hfinishedFix _ (by rw [h300t])]
  · intro k
    rw [Function.iterate_succ_apply']
    rcases hph : (tick^[k] st).phase with hw | ha | hf
    · rw [tick, if_neg (by rw [hph]; intro hh; cases hh)]
    · rw [tick, if_pos hph]
      by_cases hz : (tick^[k] st).secondsRemaining - 1 = 0
      · rw [if_pos hz]; simp
      · rw [if_neg hz]; simp
    · rw [tick, if_neg (by rw [hph]; intro hh; cases hh)]

/-- Witness for C7 at the sample active match (scores 2:1, so A wins). -/
theorem timer_300_ticks_witness :
    (tick^[300] sampleActive).phase = Phase.finished
    ∧ (tick^[300] sampleActive).secondsRemaining = 0
    ∧ (tick^[300] sampleActive).finishReason = some Reason.timeout
    ∧ (tick^[300] sampleActive).winner = some Player.A :=
  ⟨(timer_300_ticks sampleActive rfl rfl).2.1,
   (timer_300_ticks sampleActive rfl rfl).2.2.1,
   (timer_300_ticks sampleActive rfl rfl).2.2.2.1,
   ((timer_300_ticks sampleActive rfl rfl).2.2.2.2.1).trans (by decide)⟩

/-- C8: a guess that is not exactly 5 alphabetic characters (wrong length or
a non-letter) is rejected on an active match with `InvalidGuess`, and the
match state — scores and guess histories included — is unchanged. -/
theorem invalid_guess_rejected (newWord : List Char) (p : Player)
    (g : List Char) (st : MatchState) (hact : st.phase = Phase.active)
    (hbad : g.length ≠ 5 ∨ ¬(g.all Char.isAlpha = true)) :
    submitGuess newWord p g st = Except.error GuessError.invalidGuess
    ∧ applyGuess newWord p g st = st
    ∧ (applyGuess newWord p g st).scoreA = st.scoreA
    ∧ (applyGuess newWord p g st).scoreB = st.scoreB
    ∧ (applyGuess newWord p g st).historyA = st.historyA
    ∧ (applyGuess newWord p g st).historyB = st.historyB := by
  have hv : validGuess g = false := by
    rcases hbad with hb | hb
    · simp [validGuess, hb]
    · simp [validGuess, Bool.eq_false_iff.mpr hb]
  have h1 : submitGuess newWord p g st
      = Except.error GuessError.invalidGuess := by
    rw [submitGuess, if_neg (by rw [hact]; intro hh; cases hh),
      if_neg (by rw [hact]; intro hh; cases hh), if_pos hv]
  have h2 : applyGuess newWord p g st = st := by
    simp [applyGuess, h1]
  exact ⟨h1, h2, by rw [h2], by rw [h2], by rw [h2], by rw [h2]⟩

/-- Witness for C8: the guess "AB1CD" (contains a digit) on the sample
active match. -/
theorem invalid_guess_rejected_witness :
    submitGuess "CRANE".toList Player.A "AB1CD".toList sampleActive
      = Except.error GuessError.invalidGuess
    ∧ applyGuess "CRANE".toList Player.A "AB1CD".toList sampleActive
      = sampleActive
    ∧ (applyGuess "CRANE".toList Player.A "AB1CD".toList
        sampleActive).scoreA = sampleActive.scoreA
    ∧ (applyGuess "CRANE".toList Player.A "AB1CD".toList
        sampleActive).scoreB = sampleActive.scoreB
    ∧ (applyGuess "CRANE".toList Player.A "AB1CD".toList
        sampleActive).historyA = sampleActive.historyA
    ∧ (applyGuess "CRANE".toList Player.A "AB1CD".toList
        sampleActive).historyB = sampleActive.historyB :=
  invalid_guess_rejected "CRANE".toList Player.A "AB1CD".toList
    sampleActive rfl (Or.inr (by decide))

/-! ## Theorems: client-side handlers -/

/-- C9: a duplicate delivery of `match_found` to a client that already holds
a current room is a no-op on the client state, so applying the handler of
`src/static/gamepage.js` twice with the same event equals applying it
once. -/
theorem match_found_idempotent (e : MatchFoundEvent) (s : GamepageState)
    (hroom : e.room ≠ "") :
    onMatchFound e (onMatchFound e s) = onMatchFound e s
    ∧ (s.matchStarted = true → jsTruthy s.currentRoom = true →
        onMatchFound e s = s) := by
  constructor
  · by_cases h : (s.matchStarted && jsTruthy s.currentRoom) = true
    · have hs : onMatchFound e s = s := by rw [onMatchFound, if_pos h]
      rw [hs]
      exact hs
    · have hs : onMatchFound e s = matchFoundState e := by
        rw [onMatchFound, if_neg h]
      rw [hs]
      have hguard : ((matchFoundState e).matchStarted
          && jsTruthy (matchFoundState e).currentRoom) = true := by
        simp [matchFoundState, jsTruthy, hroom]
      rw [onMatchFound, if_pos hguard]
  · intro h1 h2
    rw [onMatchFound, if_pos (by rw [h1, h2]; rfl)]

/-- Witness for C9 at a concrete event and client state that already holds
the room. -/
theorem match_found_idempotent_witness :
    onMatchFound ⟨"room42", true⟩
        (onMatchFound ⟨"room42", true⟩ (matchFoundState ⟨"room42", true⟩))
      = onMatchFound ⟨"room42", true⟩ (matchFoundState ⟨"room42", true⟩)
    ∧ ((matchFoundState ⟨"room42", true⟩).matchStarted = true →
        jsTruthy (matchFoundState ⟨"room42", true⟩).currentRoom = true →
        onMatchFound ⟨"room42", true⟩ (matchFoundState ⟨"room42", true⟩)
          = matchFoundState ⟨"room42", true⟩) :=
  match_found_idempotent ⟨"room42", true⟩ (matchFoundState ⟨"room42", true⟩)
    (by decide)

/-- C10: for every input whose trimmed upper-cased form has exactly 5
characters — digits and punctuation included — the `src/static/gamepage.js`
submit handler emits `submit_guess` with that string; its only rejection is
length different from 5, whereas the handler of `src/unnamed/part_003`
additionally rejects non-letters, as its rejection of "AB1CD" shows. -/
theorem gamepage_submit_length_only (room : String) (hroom : room ≠ "")
    (input : List Char)
    (h5 : ((jsTrim input).map jsToUpper).length = 5) :
    gamepageSubmitClick false (some room) input
      = SubmitAction.emitGuess room ((jsTrim input).map jsToUpper)
    ∧ (∀ input2 : List Char, ((jsTrim input2).map jsToUpper).length ≠ 5 →
        gamepageSubmitClick false (some room) input2
          = SubmitAction.showErr "Guess must be 5 letters")
    ∧ part003SubmitGuess true (some "r1") ("AB1CD".toList)
        = SubmitAction.showErr "Guess must contain only letters" := by
  have hr : (room == "") = false := by simp [hroom]
  refine ⟨?_, ?_, by decide⟩
  · have h5' : (jsTrim input).length = 5 := by simpa using h5
    simp [gamepageSubmitClick, hr, h5']
  · intro input2 h2
    have h2' : (jsTrim input2).length ≠ 5 := by simpa using h2
    simp [gamepageSubmitClick, hr, h2']

/-- Witness for C10: the raw input "  ab1cd " (spaces, lower case, a digit)
is emitted as "AB1CD" by the gamepage handler and rejected by the
part_003 handler. -/
theorem gamepage_submit_length_only_witness :
    gamepageSubmitClick false (some "r1") ("  ab1cd ".toList)
      = SubmitAction.emitGuess "r1" ("AB1CD".toList)
    ∧ part003SubmitGuess true (some "r1") ("AB1CD".toList)
      = SubmitAction.showErr "Guess must contain only letters" :=
  ⟨((gamepage_submit_length_only "r1" (by decide) "  ab1cd ".toList
      (by decide)).1).trans (by decide),
   (gamepage_submit_length_only "r1" (by decide) "  ab1cd ".toList
      (by decide)).2.2⟩

end WordleBattle
